import Mathlib

/-!
Shallow embedding of the `add_ruby` edge-side HTML ruby annotator
(`src/main.rs`).  The program fetches an origin page, partitions its body
into runs that need a phonetic reading and runs that do not
(`analyze_jp`), sends the collected runs to a phonetic-conversion service
in one batch, and rebuilds the page with `<ruby>` markup
(`generate_html_with_ruby`).  The embedding works over `List Char`,
mirroring the source, which collects the body into a `Vec<char>` and
indexes it.  The scanning loops are modelled with explicit fuel because
the source's control flow does not terminate on every input.
-/

/-- Modelled from the spec: the character classifier comes from the external
`kanji` crate, which is not part of this repository's sources.  The spec's
Ideograph class is the CJK Unified Ideographs block. -/
def is_kanji (c : Char) : Bool := 0x4e00 ≤ c.toNat && c.toNat ≤ 0x9fff

/-- Modelled from the spec: SyllabicKana is the hiragana letter range. -/
def is_hiragana (c : Char) : Bool := 0x3041 ≤ c.toNat && c.toNat ≤ 0x3096

/-- Combined classification used by the scanner: the source tests
`is_kanji(&c) || is_hiragana(&c)` (its branches are written on the negation
`!is_kanji && !is_hiragana`). -/
def jp_char (c : Char) : Bool := is_kanji c || is_hiragana c

/-- Mirror of the source's `HtmlPart { content: String, need_ruby: bool }`,
with the string as its character list. -/
structure HtmlPart where
  content : List Char
  need_ruby : Bool
deriving DecidableEq, Repr

/-- Control position inside `analyze_jp`: `outer` is the `while i < chars_num`
loop, `inner` is the `loop` entered when the current character is `>`. -/
inductive Phase
  | outer
  | inner
deriving DecidableEq, Repr

/-- Fuel-indexed transcription of the two nested loops of `analyze_jp`.
State: character index `i`, the accumulating `content` buffer, the
`html_parts` list built so far, and the `jp_content` string.  `none` means
the given fuel was exhausted before the loops returned.  Each recursive
call consumes one unit of fuel; apart from that the branch structure is the
source's, with `cs.getD i ' '` standing for the (always in-bounds in the
source) index `html_chars[i]`. -/
def analyze_loop (cs : List Char) : Nat → Phase → Nat → List Char → List HtmlPart → List Char →
    Option (List HtmlPart × List Char)
  | 0, _, _, _, _, _ => none
  | fuel + 1, Phase.outer, i, content, parts, jp =>
    if i < cs.length then
      if cs.getD i ' ' = '>' then
        analyze_loop cs fuel Phase.inner i content parts jp
      else
        analyze_loop cs fuel Phase.outer (i + 1) (content ++ [cs.getD i ' ']) parts jp
    else
      some (parts, jp)
  | fuel + 1, Phase.inner, i, content, parts, jp =>
    if i + 1 < cs.length then
      if cs.getD (i + 1) ' ' = '<' then
        if jp_char (cs.getD i ' ') then
          analyze_loop cs fuel Phase.outer (i + 1) []
            (parts ++ [⟨content ++ [cs.getD i ' '], true⟩])
            (jp ++ (content ++ [cs.getD i ' ']) ++ [','])
        else
          analyze_loop cs fuel Phase.outer (i + 1) (content ++ [cs.getD i ' ']) parts jp
      else if jp_char (cs.getD (i + 1) ' ') then
        if jp_char (cs.getD i ' ') then
          analyze_loop cs fuel Phase.inner (i + 1) (content ++ [cs.getD i ' ']) parts jp
        else
          analyze_loop cs fuel Phase.inner (i + 1) []
            (parts ++ [⟨content ++ [cs.getD i ' '], false⟩]) jp
      else
        if jp_char (cs.getD i ' ') then
          analyze_loop cs fuel Phase.inner (i + 1) []
            (parts ++ [⟨content ++ [cs.getD i ' '], true⟩])
            (jp ++ (content ++ [cs.getD i ' ']) ++ [','])
        else
          analyze_loop cs fuel Phase.inner (i + 1) (content ++ [cs.getD i ' ']) parts jp
    else
      analyze_loop cs fuel Phase.outer i (content ++ [cs.getD i ' '])
        (parts ++ [⟨content ++ [cs.getD i ' '], false⟩]) jp

/-- Mirror of `analyze_jp(body_string) -> (Vec<HtmlPart>, String)`: start the
scan at index 0 with empty buffer, empty part list, empty `jp_content`. -/
def analyze_jp (fuel : Nat) (body : List Char) : Option (List HtmlPart × List Char) :=
  analyze_loop body fuel Phase.outer 0 [] [] []

/-- Mirror of Rust's `str::split(sep)` on a character separator: empty pieces
are kept and splitting the empty string yields one empty piece. -/
def split_char (sep : Char) : List Char → List (List Char)
  | [] => [[]]
  | c :: rest =>
    if c = sep then
      [] :: split_char sep rest
    else
      match split_char sep rest with
      | [] => [[c]]
      | t :: ts => (c :: t) :: ts

/-- Mirror of the `for part in parts` loop of `generate_html_with_ruby`,
with the reading cursor `i`.  The source indexes `ruby[i]` without a bounds
check; an out-of-range index is a panic, modelled as `none`. -/
def render_parts : List HtmlPart → List (List Char) → Nat → Option (List Char)
  | [], _, _ => some []
  | p :: ps, ruby, i =>
    if p.need_ruby then
      match ruby.get? i with
      | none => none
      | some r =>
        (render_parts ps ruby (i + 1)).map fun rest =>
          "<ruby><rb>".toList ++ p.content ++ "</rb><rt>".toList ++ r ++
            "</rt></ruby>".toList ++ rest
    else
      (render_parts ps ruby i).map fun rest => p.content ++ rest

/-- Mirror of `generate_html_with_ruby(parts, jp_content)`.  The function
unconditionally calls `get_hiragana(&jp_content)` first; the external
service is abstracted as `oracle`, mapping the request's `sentence` payload
to the response's `converted` field, and the first component records the
list of payloads actually sent to the service (always exactly one). -/
def generate_html_with_ruby (parts : List HtmlPart) (jp_content : List Char)
    (oracle : List Char → List Char) : List (List Char) × Option (List Char) :=
  ([jp_content], render_parts parts (split_char ',' (oracle jp_content)) 0)

/-- Origin response as seen by `main` after the backend send: status code,
header list (header names lower-cased, as `http::HeaderMap` stores them),
body text. -/
structure OriginResponse where
  status : Nat
  headers : List (List Char × List Char)
  body : List Char
deriving DecidableEq, Repr

/-- Mirror of `resp.headers().get(CONTENT_TYPE)`: first header named
`content-type`, if any. -/
def content_type_of (r : OriginResponse) : Option (List Char) :=
  (r.headers.find? fun h => h.1 == "content-type".toList).map Prod.snd

/-- Observable outcome of `main` from the origin response on: either a
response is emitted (the origin response itself on the passthrough path, or
the freshly built `Response::builder().status(OK).body(..)` one on the
annotation path), or the program panics (`unwrap` on a missing header, or
`ruby[i]` out of range). -/
inductive MainOutcome
  | response (r : OriginResponse)
  | panicked
deriving DecidableEq, Repr

/-- Mirror of the tail of `main`, from the received origin response: the
`status == OK && content_type == "text/html"` gate, the analyze / generate
pipeline on the annotation path, and the untouched `Ok(resp)` otherwise.
`&&` is short-circuit, so the `unwrap` of the content-type lookup is only
reached when the status is 200.  The second component lists the phonetic
service calls issued.  The built annotation response carries only the
status and the body: the builder sets no headers. -/
def main_process (fuel : Nat) (resp : OriginResponse) (oracle : List Char → List Char) :
    Option (MainOutcome × List (List Char)) :=
  if resp.status = 200 then
    match content_type_of resp with
    | none => some (MainOutcome.panicked, [])
    | some ct =>
      if ct = "text/html".toList then
        match analyze_jp fuel resp.body with
        | none => none
        | some (parts, jp) =>
          match generate_html_with_ruby parts jp oracle with
          | (reqs, none) => some (MainOutcome.panicked, reqs)
          | (reqs, some o) => some (MainOutcome.response ⟨200, [], o⟩, reqs)
      else
        some (MainOutcome.response resp, [])
  else
    some (MainOutcome.response resp, [])

/-- Contents of the needs-reading parts, each followed by the delimiter, in
order: the shape in which `analyze_jp` accumulates `jp_content`. -/
def needs_join (parts : List HtmlPart) : List Char :=
  ((parts.filter fun p => p.need_ruby).map fun p => p.content ++ [',']).flatten

/-- Number of needs-reading parts. -/
def needs_count (parts : List HtmlPart) : Nat :=
  (parts.filter fun p => p.need_ruby).length

/-- Dropping at an in-range index exposes the head element. -/
theorem drop_eq_getD_cons (cs : List Char) :
    ∀ i : Nat, i < cs.length → cs.drop i = cs.getD i ' ' :: cs.drop (i + 1) := by
  induction cs with
  | nil => intro i h; simp at h
  | cons c cs ih =>
    intro i h
    cases i with
    | zero => simp
    | succ j =>
      have hj : j < cs.length := by simpa using h
      simpa using ih j hj

/-- Divergence invariant of the scan: once the index sits on the final
character of the document and that character is `>`, both loops bounce
between each other at that index forever, so no amount of fuel produces a
result. -/
theorem loop_none_at_last_gt (cs : List Char) (i : Nat) (hi : i + 1 = cs.length)
    (hc : cs.getD i ' ' = '>') :
    ∀ fuel ph content parts jp, analyze_loop cs fuel ph i content parts jp = none := by
  intro fuel
  induction fuel with
  | zero => intro ph content parts jp; cases ph <;> rfl
  | succ f ih =>
    intro ph content parts jp
    cases ph with
    | outer =>
      have hlt : i < cs.length := by omega
      simp only [analyze_loop, if_pos hlt, if_pos hc]
      exact ih Phase.inner content parts jp
    | inner =>
      have hnlt : ¬ (i + 1 < cs.length) := by omega
      simp only [analyze_loop, if_neg hnlt]
      exact ih Phase.outer _ _ jp

/-- Appending a needs-reading part extends the accumulated payload by that
part's content plus the delimiter. -/
theorem needs_join_append_true (parts : List HtmlPart) (c : List Char) :
    needs_join (parts ++ [⟨c, true⟩]) = needs_join parts ++ (c ++ [',']) := by
  simp [needs_join, List.filter_append]

/-- Appending a plain part leaves the accumulated payload unchanged. -/
theorem needs_join_append_false (parts : List HtmlPart) (c : List Char) :
    needs_join (parts ++ [⟨c, false⟩]) = needs_join parts := by
  simp [needs_join, List.filter_append]

/-- Invariant of the scan: `jp_content` always equals the needs-reading
contents flushed so far, each followed by the delimiter. -/
theorem loop_jp_inv (cs : List Char) :
    ∀ fuel ph i content parts jp P J,
      jp = needs_join parts →
      analyze_loop cs fuel ph i content parts jp = some (P, J) →
      J = needs_join P := by
  intro fuel
  induction fuel with
  | zero =>
    intro ph i content parts jp P J _ h
    cases ph <;> simp [analyze_loop] at h
  | succ f ih =>
    intro ph i content parts jp P J hinv h
    cases ph with
    | outer =>
      by_cases h1 : i < cs.length
      · by_cases h2 : cs.getD i ' ' = '>'
        · simp only [analyze_loop, if_pos h1, if_pos h2] at h
          exact ih Phase.inner i content parts jp P J hinv h
        · simp only [analyze_loop, if_pos h1, if_neg h2] at h
          exact ih Phase.outer (i + 1) _ parts jp P J hinv h
      · simp only [analyze_loop, if_neg h1, Option.some.injEq, Prod.mk.injEq] at h
        obtain ⟨rfl, rfl⟩ := h
        exact hinv
    | inner =>
      by_cases hn : i + 1 < cs.length
      · by_cases hb : cs.getD (i + 1) ' ' = '<'
        · cases hjc : jp_char (cs.getD i ' ') with
          | true =>
            simp only [analyze_loop, if_pos hn, if_pos hb, hjc, if_true] at h
            refine ih Phase.outer (i + 1) [] _ _ P J ?_ h
            rw [needs_join_append_true, hinv]
            simp [List.append_assoc]
          | false =>
            simp only [analyze_loop, if_pos hn, if_pos hb, hjc, Bool.false_eq_true,
              if_false] at h
            exact ih Phase.outer (i + 1) _ parts jp P J hinv h
        · cases hjn : jp_char (cs.getD (i + 1) ' ') with
          | true =>
            cases hjc : jp_char (cs.getD i ' ') with
            | true =>
              simp only [analyze_loop, if_pos hn, if_neg hb, hjn, hjc, if_true] at h
              exact ih Phase.inner (i + 1) _ parts jp P J hinv h
            | false =>
              simp only [analyze_loop, if_pos hn, if_neg hb, hjn, hjc, if_true,
                Bool.false_eq_true, if_false] at h
              refine ih Phase.inner (i + 1) [] _ jp P J ?_ h
              rw [needs_join_append_false]
              exact hinv
          | false =>
            cases hjc : jp_char (cs.getD i ' ') with
            | true =>
              simp only [analyze_loop, if_pos hn, if_neg hb, hjn, hjc, if_true,
                Bool.false_eq_true, if_false] at h
              refine ih Phase.inner (i + 1) [] _ _ P J ?_ h
              rw [needs_join_append_true, hinv]
              simp [List.append_assoc]
            | false =>
              simp only [analyze_loop, if_pos hn, if_neg hb, hjn, hjc,
                Bool.false_eq_true, if_false] at h
              exact ih Phase.inner (i + 1) _ parts jp P J hinv h
      · simp only [analyze_loop, if_neg hn] at h
        refine ih Phase.outer i _ _ jp P J ?_ h
        rw [needs_join_append_false]
        exact hinv

/-- Length of the filtered list when the head is kept. -/
theorem needs_count_cons_true (p : HtmlPart) (ps : List HtmlPart) (h : p.need_ruby = true) :
    needs_count (p :: ps) = needs_count ps + 1 := by
  simp [needs_count, List.filter_cons, h]

/-- Length of the filtered list when the head is skipped. -/
theorem needs_count_cons_false (p : HtmlPart) (ps : List HtmlPart) (h : p.need_ruby = false) :
    needs_count (p :: ps) = needs_count ps := by
  simp [needs_count, List.filter_cons, h]

/-- Mapping does not change definedness of an optional value. -/
theorem isSome_opt_map (f : List Char → List Char) (o : Option (List Char)) :
    (o.map f).isSome = o.isSome := by
  cases o <;> rfl

/-- Invariant of the scan: the text flushed into `html_parts`, followed by
the active buffer and the unprocessed remainder of the document, is the
whole document.  From it, any result the loops return has its flushed parts
forming a prefix of the document.  The end-of-document flush keeps the
index where it is, so that step is unrolled by hand, using the divergence
invariant when the final character is `>`. -/
theorem loop_concat_inv (cs : List Char) :
    ∀ fuel ph i content parts jp P J,
      (parts.map HtmlPart.content).flatten ++ (content ++ cs.drop i) = cs →
      (ph = Phase.inner → i < cs.length) →
      analyze_loop cs fuel ph i content parts jp = some (P, J) →
      ∃ rest, (P.map HtmlPart.content).flatten ++ rest = cs := by
  intro fuel
  induction fuel with
  | zero =>
    intro ph i content parts jp P J _ _ h
    cases ph <;> simp [analyze_loop] at h
  | succ f ih =>
    intro ph i content parts jp P J hinv hph h
    cases ph with
    | outer =>
      by_cases h1 : i < cs.length
      · have hdrop := drop_eq_getD_cons cs i h1
        by_cases h2 : cs.getD i ' ' = '>'
        · simp only [analyze_loop, if_pos h1, if_pos h2] at h
          exact ih Phase.inner i content parts jp P J hinv (fun _ => h1) h
        · simp only [analyze_loop, if_pos h1, if_neg h2] at h
          refine ih Phase.outer (i + 1) _ parts jp P J ?_ (by simp) h
          rw [hdrop] at hinv
          simpa using hinv
      · simp only [analyze_loop, if_neg h1, Option.some.injEq, Prod.mk.injEq] at h
        obtain ⟨rfl, rfl⟩ := h
        exact ⟨content ++ cs.drop i, hinv⟩
    | inner =>
      have hilen : i < cs.length := hph rfl
      have hdrop := drop_eq_getD_cons cs i hilen
      by_cases hn : i + 1 < cs.length
      · by_cases hb : cs.getD (i + 1) ' ' = '<'
        · cases hjc : jp_char (cs.getD i ' ') with
          | true =>
            simp only [analyze_loop, if_pos hn, if_pos hb, hjc, if_true] at h
            refine ih Phase.outer (i + 1) [] _ _ P J ?_ (by simp) h
            rw [hdrop] at hinv
            simpa using hinv
          | false =>
            simp only [analyze_loop, if_pos hn, if_pos hb, hjc, Bool.false_eq_true,
              if_false] at h
            refine ih Phase.outer (i + 1) _ parts jp P J ?_ (by simp) h
            rw [hdrop] at hinv
            simpa using hinv
        · cases hjn : jp_char (cs.getD (i + 1) ' ') with
          | true =>
            cases hjc : jp_char (cs.getD i ' ') with
            | true =>
              simp only [analyze_loop, if_pos hn, if_neg hb, hjn, hjc, if_true] at h
              refine ih Phase.inner (i + 1) _ parts jp P J ?_ (fun _ => hn) h
              rw [hdrop] at hinv
              simpa using hinv
            | false =>
              simp only [analyze_loop, if_pos hn, if_neg hb, hjn, hjc, if_true,
                Bool.false_eq_true, if_false] at h
              refine ih Phase.inner (i + 1) [] _ jp P J ?_ (fun _ => hn) h
              rw [hdrop] at hinv
              simpa using hinv
          | false =>
            cases hjc : jp_char (cs.getD i ' ') with
            | true =>
              simp only [analyze_loop, if_pos hn, if_neg hb, hjn, hjc, if_true,
                Bool.false_eq_true, if_false] at h
              refine ih Phase.inner (i + 1) [] _ _ P J ?_ (fun _ => hn) h
              rw [hdrop] at hinv
              simpa using hinv
            | false =>
              simp only [analyze_loop, if_pos hn, if_neg hb, hjn, hjc,
                Bool.false_eq_true, if_false] at h
              refine ih Phase.inner (i + 1) _ parts jp P J ?_ (fun _ => hn) h
              rw [hdrop] at hinv
              simpa using hinv
      · simp only [analyze_loop, if_neg hn] at h
        have hi1 : i + 1 = cs.length := by omega
        by_cases hgt : cs.getD i ' ' = '>'
        · rw [loop_none_at_last_gt cs i hi1 hgt f Phase.outer _ _ _] at h
          exact absurd h (by simp)
        · cases f with
          | zero => simp [analyze_loop] at h
          | succ g =>
            simp only [analyze_loop, if_pos hilen, if_neg hgt] at h
            cases g with
            | zero => simp [analyze_loop] at h
            | succ g2 =>
              have hge : ¬ (i + 1 < cs.length) := by omega
              simp only [analyze_loop, if_neg hge, Option.some.injEq,
                Prod.mk.injEq] at h
              obtain ⟨rfl, rfl⟩ := h
              refine ⟨[], ?_⟩
              have hdrop1 : cs.drop (i + 1) = [] := by
                rw [hi1]
                exact List.drop_length cs
              rw [hdrop, hdrop1] at hinv
              simpa using hinv

/-- Success condition of the rendering loop: it returns a string iff either
no part needs a reading or the reading list is long enough for every
needs-reading part from the cursor on; surplus readings are never checked. -/
theorem render_parts_isSome (parts : List HtmlPart) :
    ∀ (ruby : List (List Char)) (i : Nat),
      (render_parts parts ruby i).isSome =
        (needs_count parts = 0 ∨ i + needs_count parts ≤ ruby.length : Bool) := by
  induction parts with
  | nil =>
    intro ruby i
    simp [render_parts, needs_count]
  | cons p ps ih =>
    intro ruby i
    cases hp : p.need_ruby with
    | false =>
      rw [needs_count_cons_false p ps hp]
      simp only [render_parts, hp, Bool.false_eq_true, if_false]
      rw [isSome_opt_map]
      exact ih ruby i
    | true =>
      rw [needs_count_cons_true p ps hp]
      simp only [render_parts, hp, if_true]
      cases hr : ruby.get? i with
      | none =>
        have hlen : ruby.length ≤ i := List.get?_eq_none.mp hr
        simp only [Option.isSome_none]
        rw [eq_comm, decide_eq_false_iff_not]
        omega
      | some r =>
        have hlt : i < ruby.length := by
          by_contra hcon
          rw [List.get?_eq_none.mpr (by omega)] at hr
          exact absurd hr (by simp)
        rw [isSome_opt_map, ih ruby (i + 1), decide_eq_decide]
        omega

/-- C1 (amended): for every document on which the scan terminates, the
concatenated `content` of the produced Segments is a prefix of the input
text; it need not be the whole text, since text never flushed (for example
a document with no `>` at all) is dropped. -/
theorem analyze_jp_concat_extends_to_input (body : List Char) (fuel : Nat)
    (parts : List HtmlPart) (jp : List Char)
    (h : analyze_jp fuel body = some (parts, jp)) :
    ∃ rest, (parts.map HtmlPart.content).flatten ++ rest = body :=
  loop_concat_inv body fuel Phase.outer 0 [] [] [] parts jp (by simp) (by simp) h

/-- C1 witness: on `"a>b"` the scan terminates with one part and the
concatenation property is obtained from the theorem. -/
theorem analyze_jp_concat_witness :
    analyze_jp 10 "a>b".toList = some ([⟨"a>b".toList, false⟩], []) ∧
      ∃ rest, (([⟨"a>b".toList, false⟩] : List HtmlPart).map HtmlPart.content).flatten ++ rest =
        "a>b".toList :=
  ⟨by decide,
   analyze_jp_concat_extends_to_input "a>b".toList 10 [⟨"a>b".toList, false⟩] [] (by decide)⟩

/-- C1 counterexample: on input `"abc"` (which contains no `>`) the scan
terminates with no Segments at all, so the concatenation of Segment
contents is empty and does not reproduce the input. -/
theorem analyze_jp_concat_cex :
    analyze_jp 10 "abc".toList = some ([], []) ∧ "abc".toList ≠ ([] : List Char) := by
  decide

/-- C2: the Segmenter is not total.  On the one-character input `">"` the
inner loop's end-of-document branch flushes without advancing the index and
breaks back to the outer loop, which re-enters it at the same index, so no
amount of fuel makes the scan return. -/
theorem analyze_jp_gt_diverges : ∀ fuel : Nat, analyze_jp fuel ['>'] = none :=
  fun fuel => loop_none_at_last_gt ['>'] 0 rfl rfl fuel Phase.outer [] [] []

/-- C3 counterexample: on the markup-free input of end-to-end example A the
Segmenter produces no Segment at all (the outer loop never reaches a `>`
and its buffer is dropped on return), not one needs-reading Segment. -/
theorem analyze_jp_example_a_cex :
    analyze_jp 50 "日本語が難しいですよ".toList = some ([], []) ∧
      ([] : List HtmlPart) ≠ [⟨"日本語が難しいですよ".toList, true⟩] := by
  decide

/-- C3 (amended): on the markup-free input of example A the Segmenter
produces zero Segments and an empty batch payload, and reassembling the
empty Segment list — whatever reading the service returns — yields the
empty document, not a ruby annotation. -/
theorem analyze_jp_example_a_actual :
    analyze_jp 50 "日本語が難しいですよ".toList = some ([], []) ∧
      (generate_html_with_ruby [] [] fun _ => "にほんごがむずかしいですよ".toList).2 =
        some [] := by
  exact ⟨by decide, rfl⟩

/-- C4: on input `">日"` the end of the document is reached while the
buffered run ends in the Ideograph `日`, yet the final flush hard-codes
`need_ruby := false`, so the trailing Segment loses its needs-reading
mark. -/
theorem analyze_jp_eof_flag_forced_false :
    analyze_jp 10 ">日".toList = some ([⟨['>'], false⟩, ⟨['日'], false⟩], []) ∧
      is_kanji '日' = true := by
  decide

/-- C5 (amended): on the annotation path (status 200, content-type
`text/html`) exactly one phonetic-service call is issued per document,
whether or not any Segment needs a reading: `generate_html_with_ruby`
invokes `get_hiragana` unconditionally, so the call is never skipped. -/
theorem main_process_one_call (fuel : Nat) (resp : OriginResponse)
    (oracle : List Char → List Char) (out : MainOutcome) (calls : List (List Char))
    (h1 : resp.status = 200) (h2 : content_type_of resp = some ("text/html".toList))
    (h3 : main_process fuel resp oracle = some (out, calls)) :
    calls.length = 1 := by
  cases ha : analyze_jp fuel resp.body with
  | none =>
    simp [main_process, h1, h2, ha] at h3
  | some pj =>
    obtain ⟨parts, jp⟩ := pj
    cases hrender : render_parts parts (split_char ',' (oracle jp)) 0 with
    | none =>
      simp [main_process, h1, h2, ha, generate_html_with_ruby, hrender] at h3
      rw [← h3.2]
      rfl
    | some o =>
      simp [main_process, h1, h2, ha, generate_html_with_ruby, hrender] at h3
      rw [← h3.2]
      rfl

/-- C5 witness: a concrete annotation-path document with zero needs-reading
Segments on which the theorem yields one call. -/
theorem main_process_one_call_witness :
    (⟨200, [("content-type".toList, "text/html".toList)], "a>b".toList⟩ :
        OriginResponse).status = 200 ∧
      content_type_of ⟨200, [("content-type".toList, "text/html".toList)], "a>b".toList⟩ =
        some ("text/html".toList) ∧
      main_process 50 ⟨200, [("content-type".toList, "text/html".toList)], "a>b".toList⟩
          (fun _ => []) =
        some (MainOutcome.response ⟨200, [], "a>b".toList⟩, [[]]) ∧
      ([([] : List Char)]).length = 1 :=
  ⟨rfl, by decide, by decide,
   main_process_one_call 50 ⟨200, [("content-type".toList, "text/html".toList)], "a>b".toList⟩
     (fun _ => []) (MainOutcome.response ⟨200, [], "a>b".toList⟩) [[]] rfl (by decide)
     (by decide)⟩

/-- C5 counterexample: a processed HTML document whose Segments all have
`need_ruby = false` still triggers one call (with an empty `sentence`
payload), not zero. -/
theorem main_process_zero_needs_still_calls :
    main_process 50 ⟨200, [("content-type".toList, "text/html".toList)], "a>b".toList⟩
        (fun _ => []) =
      some (MainOutcome.response ⟨200, [], "a>b".toList⟩, [[]]) ∧
      (analyze_jp 50 "a>b".toList).map (fun r => needs_count r.1) = some 0 ∧
      ([([] : List Char)]).length ≠ 0 := by
  decide

/-- C6 (amended): reassembly performs no alignment validation.  It produces
output exactly when the reading list covers every needs-reading Segment
(surplus readings are silently ignored, never reported); with fewer
readings it fails through the out-of-range index `ruby[i]` — a panic
modelled as `none` — not through an explicit `AlignmentMismatch`. -/
theorem generate_html_no_alignment_check (parts : List HtmlPart) (jp : List Char)
    (oracle : List Char → List Char) :
    ((generate_html_with_ruby parts jp oracle).2).isSome = true ↔
      (needs_count parts = 0 ∨
        needs_count parts ≤ (split_char ',' (oracle jp)).length) := by
  have h := render_parts_isSome parts (split_char ',' (oracle jp)) 0
  simp only [generate_html_with_ruby]
  rw [h]
  simp

/-- C6 counterexample: with zero needs-reading Segments and two reading
tokens — an alignment mismatch — reassembly happily produces output instead
of failing. -/
theorem generate_html_mismatch_cex :
    (generate_html_with_ruby [⟨['a'], false⟩] [] fun _ => "x,y".toList).2 = some ['a'] ∧
      needs_count [⟨['a'], false⟩] ≠ (split_char ',' "x,y".toList).length := by
  decide

/-- C7 (amended): the batch payload `jp_content` is the needs-reading
Segment contents in document order, each followed by the delimiter `,` — N
contents and N delimiters, including a trailing delimiter — not the N−1
delimiter join the claim states. -/
theorem analyze_jp_payload_shape (body : List Char) (fuel : Nat)
    (parts : List HtmlPart) (jp : List Char)
    (h : analyze_jp fuel body = some (parts, jp)) :
    jp = needs_join parts :=
  loop_jp_inv body fuel Phase.outer 0 [] [] [] parts jp rfl h

/-- C7 witness: on `">日<"` the scan produces one needs-reading Segment and
the payload `"日,"`, matching the theorem's shape. -/
theorem analyze_jp_payload_witness :
    analyze_jp 10 ">日<".toList = some ([⟨['>'], false⟩, ⟨['日'], true⟩], ['日', ',']) ∧
      ['日', ','] = needs_join [⟨['>'], false⟩, ⟨['日'], true⟩] :=
  ⟨by decide, analyze_jp_payload_shape ">日<".toList 10 _ _ (by decide)⟩

/-- C7 counterexample: for the single needs-reading Segment `"日"` the
payload is `"日,"` with a trailing delimiter, not the delimiter-free
one-element join `"日"`. -/
theorem analyze_jp_payload_cex :
    (analyze_jp 10 ">日<".toList).map Prod.snd = some ['日', ','] ∧
      ['日', ','] ≠ List.intercalate [','] [['日']] := by
  decide

/-- C8 (amended): an origin response with a non-200 status, or with a
Content-Type header present but different from `text/html`, is emitted
unchanged (the very same response, with no phonetic call issued).  The
restriction to a *present* header is forced: a 200 response with no
Content-Type header at all panics instead of passing through. -/
theorem main_process_passes_through (fuel : Nat) (resp : OriginResponse)
    (oracle : List Char → List Char)
    (h : resp.status ≠ 200 ∨
      ∃ v, content_type_of resp = some v ∧ v ≠ "text/html".toList) :
    main_process fuel resp oracle = some (MainOutcome.response resp, []) := by
  rcases h with h | ⟨v, hv, hne⟩
  · simp [main_process, h]
  · by_cases hs : resp.status = 200
    · simp [main_process, hs, hv]
      intro hveq
      exact absurd hveq (by simpa using hne)
    · simp [main_process, hs]

/-- C8 witness: a 404 response is passed through unchanged. -/
theorem main_process_passes_through_witness :
    ((⟨404, [], ['x']⟩ : OriginResponse).status ≠ 200 ∨
      ∃ v, content_type_of ⟨404, [], ['x']⟩ = some v ∧ v ≠ "text/html".toList) ∧
      main_process 1 ⟨404, [], ['x']⟩ (fun _ => []) =
        some (MainOutcome.response ⟨404, [], ['x']⟩, []) :=
  ⟨Or.inl (by decide),
   main_process_passes_through 1 ⟨404, [], ['x']⟩ (fun _ => []) (Or.inl (by decide))⟩

/-- C8 counterexample: a 200 response carrying no Content-Type header —
whose content-type is therefore not an HTML media type — is not emitted
byte-identically: the unwrapped header lookup panics instead. -/
theorem main_process_passes_through_cex :
    main_process 1 ⟨200, [], ['x']⟩ (fun _ => []) = some (MainOutcome.panicked, []) ∧
      MainOutcome.panicked ≠ MainOutcome.response ⟨200, [], ['x']⟩ := by
  decide

/-- C9 (amended): on the annotation path the emitted response's body is the
reassembled text and its status is 200, but its content-type does not
mirror the original response: the built response carries no headers at
all. -/
theorem main_process_annotated_shape (fuel : Nat) (resp : OriginResponse)
    (oracle : List Char → List Char) (parts : List HtmlPart) (jp out : List Char)
    (h1 : resp.status = 200) (h2 : content_type_of resp = some ("text/html".toList))
    (h3 : analyze_jp fuel resp.body = some (parts, jp))
    (h4 : render_parts parts (split_char ',' (oracle jp)) 0 = some out) :
    main_process fuel resp oracle = some (MainOutcome.response ⟨200, [], out⟩, [jp]) := by
  simp [main_process, h1, h2, h3, generate_html_with_ruby, h4]

/-- C9 witness: a concrete annotation-path run of the theorem. -/
theorem main_process_annotated_witness :
    analyze_jp 50 "a>b".toList = some ([⟨"a>b".toList, false⟩], []) ∧
      render_parts [⟨"a>b".toList, false⟩] (split_char ',' []) 0 = some ("a>b".toList) ∧
      main_process 50 ⟨200, [("content-type".toList, "text/html".toList)], "a>b".toList⟩
          (fun _ => []) =
        some (MainOutcome.response ⟨200, [], "a>b".toList⟩, [[]]) :=
  ⟨by decide, by decide,
   main_process_annotated_shape 50
     ⟨200, [("content-type".toList, "text/html".toList)], "a>b".toList⟩ (fun _ => [])
     [⟨"a>b".toList, false⟩] [] "a>b".toList rfl (by decide) (by decide) (by decide)⟩

/-- C9 counterexample: the original success response announces
`text/html`, but the emitted annotation response carries no Content-Type
header, so the content-type is not mirrored. -/
theorem main_process_annotated_cex :
    main_process 50 ⟨200, [("content-type".toList, "text/html".toList)], "a>b".toList⟩
        (fun _ => []) =
      some (MainOutcome.response ⟨200, [], "a>b".toList⟩, [[]]) ∧
      content_type_of ⟨200, [], "a>b".toList⟩ = none ∧
      content_type_of ⟨200, [("content-type".toList, "text/html".toList)], "a>b".toList⟩ =
        some ("text/html".toList) := by
  decide

/-- C10: a 200 response with no Content-Type header is not passed through:
the content-type lookup is unwrapped without a `None` guard, so the lookup's
failure branch — a panic — is reached at the public interface. -/
theorem main_process_missing_ct_panics (fuel : Nat) (resp : OriginResponse)
    (oracle : List Char → List Char) (h1 : resp.status = 200)
    (h2 : content_type_of resp = none) :
    main_process fuel resp oracle = some (MainOutcome.panicked, []) := by
  simp [main_process, h1, h2]

/-- C10 witness: a concrete header-less 200 response panics. -/
theorem main_process_missing_ct_witness :
    (⟨200, [], ['x']⟩ : OriginResponse).status = 200 ∧
      content_type_of ⟨200, [], ['x']⟩ = none ∧
      main_process 1 ⟨200, [], ['x']⟩ (fun _ => []) = some (MainOutcome.panicked, []) :=
  ⟨rfl, rfl, main_process_missing_ct_panics 1 ⟨200, [], ['x']⟩ (fun _ => []) rfl rfl⟩
